import Mathlib

/-!
Verification of the borutowaileys messaging library against its
natural-language specification.  Each definition is a shallow embedding of
one function of the JavaScript source; the file reference is given in the
doc comment.  Machine bytes are modelled as `Nat` (values below 256 where it
matters), JS numbers that are multiplied by non-integral factors as `ℚ`,
fallible operations as `Option`.
-/

/-! ## Padding (src/lib/Utils/generics.js) -/

/-- Pad length derived from the one random byte drawn by
`writeRandomPadMax16`: `pad[0] &= 0xf; if (!pad[0]) pad[0] = 0xf`,
i.e. the low nibble of the byte, replaced by 15 when that nibble is zero. -/
def padLenOfByte (b : Nat) : Nat :=
  let r := b % 16
  if r = 0 then 15 else r

/-- `writeRandomPadMax16(msg)` from src/lib/Utils/generics.js lines 79-87:
appends `padLen` bytes, each equal to `padLen`, to the message
(`Buffer.concat([msg, Buffer.alloc(pad[0], pad[0])])`).  The random byte is
passed explicitly as `b`. -/
def writeRandomPadMax16 (msg : List Nat) (b : Nat) : List Nat :=
  msg ++ List.replicate (padLenOfByte b) (padLenOfByte b)

/-- `unpadRandomMax16(e)` from src/lib/Utils/generics.js lines 88-99: reads
the final byte `r`, throws on empty input or when `r` exceeds the length
(both modelled as `none`), else drops the last `r` bytes. -/
def unpadRandomMax16 (e : List Nat) : Option (List Nat) :=
  match e.getLast? with
  | none => none
  | some r => if e.length < r then none else some (e.take (e.length - r))

/-! ## Retry-receipt accounting (src/lib/Socket/messages-recv.js lines 144-216) -/

/-- One invocation of `sendRetryRequest`, restricted to its effect on the
`msgRetryCache` entry of the one `(message id, participant)` key and to
whether a `receipt type=retry` stanza is sent.  `entry = none` models an
absent / deleted cache key; `get(key) || 0` coerces that to 0.  The source:
`if (retryCount >= maxMsgRetryCount) { del(key); return }` (no stanza),
otherwise `retryCount++; set(key, retryCount)` and a retry receipt carrying
`count = retryCount` is sent at the end of the function.  The second
component is the count attribute of the emitted stanza, `none` when no
stanza is emitted. -/
def sendRetryRequestStep (maxMsgRetryCount : Nat) (entry : Option Nat) :
    Option Nat × Option Nat :=
  let retryCount := entry.getD 0
  if maxMsgRetryCount ≤ retryCount then
    (none, none)
  else
    (some (retryCount + 1), some (retryCount + 1))

/-- Iterated invocations of `sendRetryRequest` for the same
`(message id, participant)` key: final cache entry and, per invocation, the
count carried by the emitted `receipt type=retry` stanza (`none` = no
stanza emitted by that invocation). -/
def sendRetryRequestRun (maxMsgRetryCount : Nat) :
    Nat → Option Nat → Option Nat × List (Option Nat)
  | 0, entry => (entry, [])
  | n + 1, entry =>
    let step := sendRetryRequestStep maxMsgRetryCount entry
    let rest := sendRetryRequestRun maxMsgRetryCount n step.1
    (rest.1, step.2 :: rest.2)

/-! ## Pre-key counters (src/unnamed/part_004) -/

/-- The two pre-key counters of the credentials record. -/
structure PreKeyCounters where
  nextPreKeyId : Nat
  firstUnuploadedPreKeyId : Nat
deriving DecidableEq, Repr

/-- `initAuthCreds` from src/unnamed/part_004 lines 178-200, restricted to
the pre-key counters: `nextPreKeyId: 1, firstUnuploadedPreKeyId: 1`. -/
def initAuthCredsCounters : PreKeyCounters :=
  { nextPreKeyId := 1, firstUnuploadedPreKeyId := 1 }

/-- Modelled from the spec: `getNextPreKeys` (invoked with count 1 by
`sendRetryRequest`, src/lib/Socket/messages-recv.js line 196) is not under
src/.  Per the spec the two ids are monotonic counters and
`nextPreKeyId - firstUnuploadedPreKeyId` is the batch of generated but not
yet uploaded keys: requesting a batch of `count` keys ensures at least
`count` ids of pre-keys exist beyond `firstUnuploadedPreKeyId`, advancing
`nextPreKeyId` monotonically and leaving `firstUnuploadedPreKeyId`
untouched until upload. -/
def getNextPreKeysCounters (c : PreKeyCounters) (count : Nat) : PreKeyCounters :=
  { nextPreKeyId := max c.nextPreKeyId (c.firstUnuploadedPreKeyId + count),
    firstUnuploadedPreKeyId := c.firstUnuploadedPreKeyId }

/-- Modelled from the spec: `uploadPreKeys` (invoked by
`handleEncryptNotification`, src/lib/Socket/messages-recv.js line 226) is
not under src/.  Per the spec a successful upload marks the pending batch
uploaded, advancing `firstUnuploadedPreKeyId` up to `nextPreKeyId`. -/
def uploadPreKeysCounters (c : PreKeyCounters) : PreKeyCounters :=
  { nextPreKeyId := c.nextPreKeyId, firstUnuploadedPreKeyId := c.nextPreKeyId }

/-- Credential states reachable from `initAuthCreds` by the operations that
mutate the pre-key counters. -/
inductive PreKeyReachable : PreKeyCounters → Prop
  | init : PreKeyReachable initAuthCredsCounters
  | gen (c : PreKeyCounters) (count : Nat) :
      PreKeyReachable c → PreKeyReachable (getNextPreKeysCounters c count)
  | upload (c : PreKeyCounters) :
      PreKeyReachable c → PreKeyReachable (uploadPreKeysCounters c)

/-! ## Disconnect classification (src/lib/Utils/whatsapp-error-handler.js) -/

/-- `l.take p.length = p` : does the list start with the pattern. -/
def listStartsWith : List Char → List Char → Bool
  | _, [] => true
  | [], _ :: _ => false
  | a :: s, b :: p => if a = b then listStartsWith s p else false

/-- JS `String.prototype.includes` on char lists: some suffix starts with
the pattern. -/
def listContainsSeq : List Char → List Char → Bool
  | [], p => p.isEmpty
  | a :: rest, p => listStartsWith (a :: rest) p || listContainsSeq rest p

/-- JS `s.includes(pat)`. -/
def strContains (s pat : String) : Bool :=
  listContainsSeq s.toList pat.toList

/-- JS `s.toLowerCase()` (ASCII-faithful). -/
def strLower (s : String) : String :=
  ⟨s.data.map Char.toLower⟩

/-- The `authClearingCodes` array of `isAuthClearingError`
(src/lib/Utils/whatsapp-error-handler.js lines 12-19). -/
def authClearingCodes : List Int := [428, 405, 500, 401, 403, 419]

/-- The `badSessionKeywords` array of `isAuthClearingError`
(src/lib/Utils/whatsapp-error-handler.js lines 23-30). -/
def badSessionKeywords : List String :=
  ["bad session", "session expired", "invalid session", "precondition required",
   "connection failure", "unauthorized"]

/-- `badSessionKeywords.some(keyword => reasonStr.includes(keyword))` over the
lowercased reason. -/
def hasBadSessionKeyword (reason : String) : Bool :=
  badSessionKeywords.any (fun kw => strContains (strLower reason) kw)

/-- `isAuthClearingError(code, reason)` from
src/lib/Utils/whatsapp-error-handler.js lines 11-34. -/
def isAuthClearingError (code : Int) (reason : String) : Bool :=
  authClearingCodes.contains code || hasBadSessionKeyword reason

/-- The `fixAction` strings returned by `getErrorFixAction`. -/
inductive FixAction where
  | clearAuth
  | reconfigureHeaders
  | reconnect
  | reconnectFast
  | waitAndRetry
  | rateLimitWait
deriving DecidableEq, Repr

/-- `getErrorFixAction(code, reason)` from
src/lib/Utils/whatsapp-error-handler.js lines 41-83. -/
def getErrorFixAction (code : Int) (reason : String) : FixAction :=
  let reasonStr := strLower reason
  if code = 428 then .clearAuth
  else if code = 405 then .reconfigureHeaders
  else if code = 500 then
    (if strContains reasonStr "bad session" || strContains reasonStr "session" then
      .clearAuth
    else .reconnect)
  else if code = 408 then .reconnectFast
  else if code = 401 then .clearAuth
  else if code = 403 then .clearAuth
  else if code = 503 then .waitAndRetry
  else if code = 429 then .rateLimitWait
  else if code = 1006 then
    (if strContains reasonStr "session" || strContains reasonStr "auth" then
      .clearAuth
    else .reconnect)
  else
    (if strContains reasonStr "session" || strContains reasonStr "auth" then
      .clearAuth
    else .reconnect)

/-- The `baseDelays` array `[2000, 4000, 8000, 16000, 30000]` indexed by
`Math.min(attempt - 1, baseDelays.length - 1)`
(src/lib/Utils/whatsapp-error-handler.js lines 90-91).  Callers always pass
`attempt ≥ 1`. -/
def baseDelay (attempt : Nat) : ℚ :=
  [(2000 : ℚ), 4000, 8000, 16000, 30000].getD (min (attempt - 1) 4) 0

/-- `calculateReconnectDelay(code, attempt, fixAction)` from
src/lib/Utils/whatsapp-error-handler.js lines 88-113.  The `code` argument
is unused by the source body as well; JS float multiplications are modelled
exactly over `ℚ`. -/
def calculateReconnectDelay (_code : Int) (attempt : Nat) (fixAction : FixAction) : ℚ :=
  let b := baseDelay attempt
  match fixAction with
  | .clearAuth => max (b * (3 / 2)) 3000
  | .reconfigureHeaders => max (b * (4 / 5)) 2000
  | .reconnectFast => max (b * (1 / 2)) 1000
  | .waitAndRetry => b * 2
  | .rateLimitWait => b * 3
  | .reconnect => b

/-- The delay actually computed for a disconnect, as composed by
`processConnectionError` (src/lib/Utils/whatsapp-error-handler.js line 139):
`calculateReconnectDelay(code, attempt, getErrorFixAction(code, reason))`. -/
def reconnectDelay (code : Int) (reason : String) (attempt : Nat) : ℚ :=
  calculateReconnectDelay code attempt (getErrorFixAction code reason)

/-- The multiplier table exactly as the claim states it (spec §4.I),
including the `×1.2` multiplier for close code 1006.  Used only to compare
the claim against the code. -/
def claimedMultiplierDelay (code : Int) (attempt : Nat) : ℚ :=
  let b := baseDelay attempt
  if code = 503 then b * 2
  else if code = 429 then b * 3
  else if code = 408 then max (b * (1 / 2)) 1000
  else if code = 428 ∨ code = 401 ∨ code = 403 then max (b * (3 / 2)) 3000
  else if code = 405 then max (b * (4 / 5)) 2000
  else if code = 1006 then b * (6 / 5)
  else b

/-- The corrected multiplier table: as the claim, except that 1006 and every
other unlisted code get multiplier 1 unless the lowercased reason contains
"session" or "auth" (then ×1.5, min 3 s), and 500 gets ×1.5 (min 3 s) when
the reason mentions a (bad) session and ×1 otherwise. -/
def amendedMultiplierDelay (code : Int) (reason : String) (attempt : Nat) : ℚ :=
  let b := baseDelay attempt
  let r := strLower reason
  if code = 503 then b * 2
  else if code = 429 then b * 3
  else if code = 408 then max (b * (1 / 2)) 1000
  else if code = 428 ∨ code = 401 ∨ code = 403 then max (b * (3 / 2)) 3000
  else if code = 405 then max (b * (4 / 5)) 2000
  else if code = 500 then
    (if strContains r "bad session" || strContains r "session" then
      max (b * (3 / 2)) 3000
    else b)
  else if strContains r "session" || strContains r "auth" then max (b * (3 / 2)) 3000
  else b

/-! ## Inbound handlers (src/lib/Socket/messages-recv.js) -/

/-- Outcome of the decrypt attempt inside `handleMessage`: success, the
`CIPHERTEXT` stub whose first parameter is `MISSING_KEYS_ERROR_TEXT`, or
the `CIPHERTEXT` stub with any other parameter (the retry path). -/
inductive DecryptOutcome where
  | success
  | missingKeys
  | cipherFailure
deriving DecidableEq, Repr

/-- The branch-deciding facts of one inbound `message` stanza, as tested by
`handleMessage` (src/lib/Socket/messages-recv.js lines 637-717):
`flood` = result of `checkFlood`; `ignored` = `shouldIgnoreJid(from)` and
the sender is not the bare server jid; `unavailable` / `hasEnc` = presence
of the corresponding children; `resendResolved` = `requestPlaceholderResend`
returned the string RESOLVED; `outcome` = decrypt outcome. -/
structure InboundMessage where
  flood : Bool
  ignored : Bool
  unavailable : Bool
  hasEnc : Bool
  resendResolved : Bool
  outcome : DecryptOutcome
deriving DecidableEq, Repr

/-- An ack stanza as sent by `sendMessageAck` (lines 94-122): either without
an error attribute or carrying the `NACK_REASONS.ParsingError` code. -/
inductive Ack where
  | plain
  | nackParsingError
deriving DecidableEq, Repr

/-- Control-flow model of `handleMessage` (lines 637-717).  Returns the acks
sent for the stanza in emission order, and whether the stanza reached
`upsertMessage`.  Paths: flood drop (ack, return); ignored jid (ack,
return); unavailable placeholder with no enc child (ack immediately, then
return only when the resend request resolved); decrypt with `CIPHERTEXT`
stub and missing keys (ack with NACK reason, return before upsert); the
remaining paths fall through to the final `sendMessageAck` of line 711 and
to `upsertMessage`. -/
def handleMessage (n : InboundMessage) : List Ack × Bool :=
  if n.flood then ([.plain], false)
  else if n.ignored then ([.plain], false)
  else
    let placeholderPath := n.unavailable && !n.hasEnc
    let pre : List Ack := if placeholderPath then [.plain] else []
    if placeholderPath && n.resendResolved then (pre, false)
    else
      match n.outcome with
      | .missingKeys => (pre ++ [.nackParsingError], false)
      | .cipherFailure => (pre ++ [.plain], true)
      | .success => (pre ++ [.plain], true)

/-- Control-flow model of `handleReceipt` (lines 549-611): an ignored jid is
ack'd and dropped; otherwise processing runs under the mutex and the ack is
sent in the `finally` block.  Second component: whether processing ran. -/
def handleReceipt (ignored : Bool) : List Ack × Bool :=
  if ignored then ([.plain], false) else ([.plain], true)

/-- Control-flow model of `handleNotification` (lines 613-635): same ack
discipline as `handleReceipt`. -/
def handleNotification (ignored : Bool) : List Ack × Bool :=
  if ignored then ([.plain], false) else ([.plain], true)

/-- Control-flow model of `handleCall` (lines 764-794): the call is always
processed and the stanza ack'd once at the end. -/
def handleCall : List Ack × Bool := ([.plain], true)

/-! ## Flood guard (src/lib/Socket/messages-recv.js lines 53-65) -/

/-- `checkFlood(jid, floodWindowMs, threshold)` for one sender: filter the
stored arrival timestamps to those with `now - time < floodWindowMs`, push
`now`, store the result, and report a flood when the stored count exceeds
the threshold. -/
def checkFlood (floodWindowMs threshold : Nat) (timestamps : List Nat)
    (now : Nat) : Bool × List Nat :=
  let ts := (timestamps.filter (fun t => now - t < floodWindowMs)) ++ [now]
  (decide (threshold < ts.length), ts)

/-- Sequential arrival of `message` stanzas from one jid at the given times:
each stanza runs `checkFlood` on the per-sender timestamp state and then
`handleMessage` with the resulting flood flag (an otherwise ordinary
message that decrypts fine).  Returns the per-stanza handler results and
the final timestamp state. -/
def processFloodSequence (floodWindowMs threshold : Nat) (timestamps : List Nat) :
    List Nat → List (List Ack × Bool) × List Nat
  | [] => ([], timestamps)
  | now :: rest =>
    let fl := checkFlood floodWindowMs threshold timestamps now
    let r := processFloodSequence floodWindowMs threshold fl.2 rest
    (handleMessage { flood := fl.1, ignored := false, unavailable := false,
                     hasEnc := true, resendResolved := false,
                     outcome := .success } :: r.1, r.2)

/-! ## Offline batch ordering (src/lib/Socket/messages-recv.js lines 820-858)

`processNode` routes every stanza whose attrs carry `offline` into the FIFO
queue of `makeOfflineNodeProcessor`, which a single worker drains in order
with `nodes.shift()`; stanzas without the marker are dispatched immediately
via `processNodeWithBuffer` and run concurrently with the drain (they
serialize among themselves through the processing mutex, in arrival order).
The model is a small-step system over that structure; a step either ingests
the next arrival (arrivals are delivered by the reader in order) or
completes the handler of the stanza at the head of one of the two lanes. -/

/-- A stanza, reduced to its offline marker and an identity. -/
structure Stanza where
  offline : Bool
  sid : Nat
deriving DecidableEq, Repr

/-- Receiver state: stanzas not yet delivered by the server (in delivery
order), the offline FIFO queue, the live dispatch lane (mutex queue, in
arrival order), and the stanzas whose handlers have completed, in
completion order. -/
structure RecvState where
  pendingArrivals : List Stanza
  offlineQueue : List Stanza
  livePending : List Stanza
  processed : List Stanza
deriving DecidableEq, Repr

/-- One scheduler step of the receiver. -/
inductive RecvStep : RecvState → RecvState → Prop
  | arriveOffline (s : RecvState) (st : Stanza) (rest : List Stanza) :
      s.pendingArrivals = st :: rest → st.offline = true →
      RecvStep s ⟨rest, s.offlineQueue ++ [st], s.livePending, s.processed⟩
  | arriveLive (s : RecvState) (st : Stanza) (rest : List Stanza) :
      s.pendingArrivals = st :: rest → st.offline = false →
      RecvStep s ⟨rest, s.offlineQueue, s.livePending ++ [st], s.processed⟩
  | procOffline (s : RecvState) (st : Stanza) (rest : List Stanza) :
      s.offlineQueue = st :: rest →
      RecvStep s ⟨s.pendingArrivals, rest, s.livePending, s.processed ++ [st]⟩
  | procLive (s : RecvState) (st : Stanza) (rest : List Stanza) :
      s.livePending = st :: rest →
      RecvStep s ⟨s.pendingArrivals, s.offlineQueue, rest, s.processed ++ [st]⟩

/-- Executions of the receiver. -/
def RecvReaches (a b : RecvState) : Prop :=
  Relation.ReflTransGen RecvStep a b

/-! ## Transactional key store (src/unnamed/part_004, `addTransactionCapability`) -/

/-- A row address `(type, id)` of the keyed store. -/
abbrev SKey := String × String

/-- Association map, newest binding first (models the mutable JS object:
`kvGet` returns the most recent binding). -/
abbrev KV (V : Type) := List (SKey × V)

/-- Lookup of a row. -/
def kvGet {V : Type} : KV V → SKey → Option V
  | [], _ => none
  | (k2, v) :: rest, k => if k = k2 then some v else kvGet rest k

/-- `Object.assign(target, data)`: bind every entry of `data` in order, later
entries shadowing earlier ones and all of them shadowing `target`. -/
def kvSetMany {V : Type} (m : KV V) (data : KV V) : KV V :=
  data.foldl (fun acc p => p :: acc) m

/-- Apply a batch of mutations to the underlying store: a `some` value sets
the row, a `none` (JS `null`) deletes it (spec §4.C: "null value deletes"). -/
def storeApply {V : Type} (store : KV V) (muts : KV (Option V)) : KV V :=
  muts.foldl
    (fun acc p =>
      match p.2 with
      | some v => (p.1, v) :: acc
      | none => acc.filter (fun q => decide (q.1 ≠ p.1)))
    store

/-- Observable events of the transactional store: an invocation of the
underlying `state.set` (with its success flag), a `delay(ms)` between
commit attempts, and the value returned for a row by `get`. -/
inductive TxEv (V : Type) where
  | storeSet (ok : Bool)
  | delayed (ms : Nat)
  | got (k : SKey) (v : Option V)
deriving DecidableEq, Repr

/-- State of the store returned by `addTransactionCapability`: the
underlying store contents, the closure variables `transactionCache`,
`mutations` and `transactionsInProgress`, and the event log. -/
structure TxM (V : Type) where
  store : KV V
  transactionCache : KV (Option V)
  mutations : KV (Option V)
  transactionsInProgress : Nat
  log : List (TxEv V)

/-- `get(type, [id])` for a single row (src/unnamed/part_004 lines 94-113).
Inside a transaction: a cache hit (`typeof dict[id] !== 'undefined'`,
including a cached `null`) is answered from `transactionCache`, with the
reduce step returning the row only when the cached entry is truthy; a miss
falls through to the underlying store, and only rows the store returned
are assigned into `transactionCache`.  Outside a transaction the call is
forwarded to the underlying store. -/
def tGetStep {V : Type} (m : TxM V) (k : SKey) : TxM V :=
  if 0 < m.transactionsInProgress then
    match kvGet m.transactionCache k with
    | some cached => { m with log := m.log ++ [TxEv.got k cached] }
    | none =>
      match kvGet m.store k with
      | some v =>
        { m with transactionCache := (k, some v) :: m.transactionCache,
                 log := m.log ++ [TxEv.got k (some v)] }
      | none => { m with log := m.log ++ [TxEv.got k none] }
  else
    { m with log := m.log ++ [TxEv.got k (kvGet m.store k)] }

/-- `set(data)` (src/unnamed/part_004 lines 114-126): inside a transaction
the batch is assigned into both `transactionCache` and `mutations`;
outside it is forwarded to the underlying store. -/
def tSetStep {V : Type} (m : TxM V) (data : KV (Option V)) : TxM V :=
  if 0 < m.transactionsInProgress then
    { m with transactionCache := kvSetMany m.transactionCache data,
             mutations := kvSetMany m.mutations data }
  else
    { m with store := storeApply m.store data,
             log := m.log ++ [TxEv.storeSet true] }

/-- The commit retry loop of `transaction` (src/unnamed/part_004 lines
140-153): up to `triesLeft` attempts of `state.set(mutations)`; each failed
attempt (the oracle `fail` decides, indexed per attempt within this commit)
logs the failure, waits `delayMs`, and doubles the delay; the first success
applies the mutations to the store; exhaustion returns silently. -/
def commitLoop {V : Type} (fail : Nat → Bool) (attempt triesLeft delayMs : Nat)
    (m : TxM V) : TxM V :=
  match triesLeft with
  | 0 => m
  | t + 1 =>
    if fail attempt then
      commitLoop fail (attempt + 1) t (delayMs * 2)
        { m with log := m.log ++ [TxEv.storeSet false, TxEv.delayed delayMs] }
    else
      { m with store := storeApply m.store m.mutations,
               log := m.log ++ [TxEv.storeSet true] }

/-- A program run against the transactional store: single-row reads, batch
writes, and (nestable) transactions whose body is again a program. -/
inductive TxOp (V : Type) where
  | get (k : SKey)
  | set (data : KV (Option V))
  | tx (sub : List (TxOp V))

mutual

/-- Run one operation (src/unnamed/part_004 lines 93-168).  `transaction`:
increment `transactionsInProgress`; run the body; if this is the outermost
transaction and there are mutations, run the commit loop with
`maxCommitRetries` attempts starting at `delayBetweenTriesMs`; finally
decrement, and when the depth returns to zero discard `transactionCache`
and `mutations`. -/
def runOp {V : Type} (fail : Nat → Bool) (maxCommitRetries delayBetweenTriesMs : Nat) :
    TxOp V → TxM V → TxM V
  | .get k, m => tGetStep m k
  | .set data, m => tSetStep m data
  | .tx sub, m =>
    let m1 : TxM V := { m with transactionsInProgress := m.transactionsInProgress + 1 }
    let m2 := runOps fail maxCommitRetries delayBetweenTriesMs sub m1
    let m3 :=
      if m2.transactionsInProgress = 1 then
        (if m2.mutations.isEmpty then m2
         else commitLoop fail 0 maxCommitRetries delayBetweenTriesMs m2)
      else m2
    let m4 : TxM V := { m3 with transactionsInProgress := m3.transactionsInProgress - 1 }
    if m4.transactionsInProgress = 0 then
      { m4 with transactionCache := [], mutations := [] }
    else m4

/-- Run a program in order. -/
def runOps {V : Type} (fail : Nat → Bool) (maxCommitRetries delayBetweenTriesMs : Nat) :
    List (TxOp V) → TxM V → TxM V
  | [], m => m
  | op :: rest, m =>
    runOps fail maxCommitRetries delayBetweenTriesMs rest
      (runOp fail maxCommitRetries delayBetweenTriesMs op m)

end

mutual

/-- The operation never writes row `k` (recursively through nested
transactions). -/
def writeFreeOp {V : Type} (k : SKey) : TxOp V → Bool
  | .get _ => true
  | .set data => data.all (fun p => decide (p.1 ≠ k))
  | .tx sub => writeFreeOps k sub

/-- No operation of the program writes row `k`. -/
def writeFreeOps {V : Type} (k : SKey) : List (TxOp V) → Bool
  | [] => true
  | op :: rest => writeFreeOp k op && writeFreeOps k rest

end

/-- The number of underlying `state.set` invocations recorded in a log. -/
def storeSetCount {V : Type} : List (TxEv V) → Nat
  | [] => 0
  | TxEv.storeSet _ :: rest => storeSetCount rest + 1
  | _ :: rest => storeSetCount rest

/-- The log appended by a commit whose every attempt fails: `n` failed
`state.set` invocations, each followed by the doubling delay. -/
def failScheduleEvents (V : Type) (delayMs : Nat) : Nat → List (TxEv V)
  | 0 => []
  | n + 1 =>
    TxEv.storeSet false :: TxEv.delayed delayMs :: failScheduleEvents V (delayMs * 2) n

/-- The delays recorded in a log, in order. -/
def delaysOf {V : Type} : List (TxEv V) → List Nat
  | [] => []
  | TxEv.delayed ms :: rest => ms :: delaysOf rest
  | _ :: rest => delaysOf rest

/-! # Theorems -/

/-! ## Padding -/

theorem padLenOfByte_bounds (b : Nat) : 1 ≤ padLenOfByte b ∧ padLenOfByte b ≤ 15 := by
  unfold padLenOfByte
  have h := Nat.mod_lt b (show 0 < 16 by decide)
  by_cases h0 : b % 16 = 0
  · simp [h0]
  · simp only [h0, if_false]
    omega

theorem unpad_append_replicate (msg : List Nat) (q : Nat) :
    unpadRandomMax16 (msg ++ List.replicate (q + 1) (q + 1)) = some msg := by
  rw [List.replicate_succ' q (q + 1), ← List.append_assoc]
  have hlast : ((msg ++ List.replicate q (q + 1)) ++ [q + 1]).getLast? = some (q + 1) :=
    List.getLast?_concat _
  have hlen : ((msg ++ List.replicate q (q + 1)) ++ [q + 1]).length
      = msg.length + q + 1 := by
    simp only [List.length_append, List.length_replicate, List.length_cons,
      List.length_nil]
  unfold unpadRandomMax16
  rw [hlast]
  simp only [hlen]
  rw [if_neg (by omega : ¬ msg.length + q + 1 < q + 1)]
  rw [show msg.length + q + 1 - (q + 1) = msg.length from by omega]
  rw [List.append_assoc, List.take_left]

/-- C10: for every byte array `msg` and every value of the random byte,
`unpadRandomMax16 (writeRandomPadMax16 msg)` returns exactly `msg`: the
appended pad bytes all equal the pad length, so unpadding strips precisely
the bytes that padding appended and never throws on padded input. -/
theorem unpad_pad_roundtrip (msg : List Nat) (b : Nat) :
    unpadRandomMax16 (writeRandomPadMax16 msg b) = some msg := by
  have h1 := (padLenOfByte_bounds b).1
  obtain ⟨q, hq⟩ : ∃ q, padLenOfByte b = q + 1 := ⟨padLenOfByte b - 1, by omega⟩
  unfold writeRandomPadMax16
  rw [hq]
  exact unpad_append_replicate msg q

/-- C8 counterexample: with random byte 1 the pad length is 1, and padding a
16-byte message yields 17 bytes — the padded result does not end on a
16-byte boundary. -/
theorem writeRandomPad_not_boundary :
    padLenOfByte 1 = 1 ∧
    (writeRandomPadMax16 (List.replicate 16 0) 1).length = 17 ∧
    (writeRandomPadMax16 (List.replicate 16 0) 1).length % 16 ≠ 0 := by decide

/-- C8 amended: `writeRandomPadMax16` appends a pad whose length, derived
from the random byte (its low nibble, 15 when that nibble is zero), lies in
`[1, 15]` and whose every byte equals the pad length; the total length is
`msg.length + padLen`, which need not be a multiple of 16. -/
theorem writeRandomPad_pad_structure (msg : List Nat) (b : Nat) :
    1 ≤ padLenOfByte b ∧ padLenOfByte b ≤ 15 ∧
    (writeRandomPadMax16 msg b).take msg.length = msg ∧
    (writeRandomPadMax16 msg b).drop msg.length
      = List.replicate (padLenOfByte b) (padLenOfByte b) ∧
    (∀ c ∈ (writeRandomPadMax16 msg b).drop msg.length, c = padLenOfByte b) ∧
    (writeRandomPadMax16 msg b).length = msg.length + padLenOfByte b := by
  refine ⟨(padLenOfByte_bounds b).1, (padLenOfByte_bounds b).2, ?_, ?_, ?_, ?_⟩
  · exact List.take_left msg _
  · exact List.drop_left msg _
  · intro c hc
    simp only [writeRandomPadMax16, List.drop_left] at hc
    exact List.eq_of_mem_replicate hc
  · simp [writeRandomPadMax16, List.length_append, List.length_replicate]

/-! ## Retry-receipt accounting -/

/-- C3 counterexample: with the default `maxMsgRetryCount = 5`, after five
invocations the cache entry records five retry receipts (the limit); the
sixth invocation emits nothing and clears the key, but — because the key
was cleared — the seventh invocation emits a `receipt type=retry` stanza
again (with count 1). -/
theorem sendRetryRequest_reemits_after_limit :
    (sendRetryRequestRun 5 5 none).1 = some 5 ∧
    (sendRetryRequestRun 5 7 none).2
      = [some 1, some 2, some 3, some 4, some 5, none, some 1] := by decide

/-- C3 amended: the invocation of `sendRetryRequest` that finds the recorded
count at `maxMsgRetryCount` emits no retry stanza and deletes the cache
entry; because the entry is deleted, the invocation after that starts from
a fresh count and emits a retry stanza with count 1 again. -/
theorem sendRetryRequest_limit_behavior (maxMsgRetryCount c : Nat)
    (hmax : 1 ≤ maxMsgRetryCount) (hc : maxMsgRetryCount ≤ c) :
    sendRetryRequestStep maxMsgRetryCount (some c) = (none, none) ∧
    sendRetryRequestStep maxMsgRetryCount none = (some 1, some 1) := by
  constructor
  · simp [sendRetryRequestStep, hc]
  · simp [sendRetryRequestStep]
    omega

theorem sendRetryRequest_limit_behavior_witness :
    sendRetryRequestStep 5 (some 5) = (none, none) ∧
    sendRetryRequestStep 5 none = (some 1, some 1) :=
  sendRetryRequest_limit_behavior 5 5 (by decide) (by decide)

/-! ## Pre-key counters -/

/-- C9 counterexample: the state produced by `initAuthCreds` has
`nextPreKeyId = 1` and `firstUnuploadedPreKeyId = 1`, so the strict
inequality `nextPreKeyId > firstUnuploadedPreKeyId` fails already in the
initial state. -/
theorem initAuthCreds_counters_not_strict :
    initAuthCredsCounters.nextPreKeyId = 1 ∧
    initAuthCredsCounters.firstUnuploadedPreKeyId = 1 ∧
    ¬ initAuthCredsCounters.firstUnuploadedPreKeyId
        < initAuthCredsCounters.nextPreKeyId := by decide

/-- C9 amended: in every credentials state reachable from `initAuthCreds`
by the operations mutating the pre-key counters,
`nextPreKeyId ≥ firstUnuploadedPreKeyId` holds (with equality possible, as
in the initial state); the gap is the batch of pre-keys ready to upload. -/
theorem preKey_counter_invariant (c : PreKeyCounters) (h : PreKeyReachable c) :
    c.firstUnuploadedPreKeyId ≤ c.nextPreKeyId := by
  induction h with
  | init => decide
  | gen c count _ ih =>
    simp only [getNextPreKeysCounters]
    omega
  | upload c _ ih =>
    simp [uploadPreKeysCounters]

theorem preKey_counter_invariant_witness :
    (getNextPreKeysCounters initAuthCredsCounters 30).firstUnuploadedPreKeyId ≤
      (getNextPreKeysCounters initAuthCredsCounters 30).nextPreKeyId :=
  preKey_counter_invariant _ (PreKeyReachable.gen _ 30 PreKeyReachable.init)

/-! ## Disconnect classification -/

/-- C7 counterexample: close code 500 (a 5xx code) with an empty reason is
classified as "auth must be cleared" by `isAuthClearingError`, although 500
is none of 401, 403, 419, 428 and the reason indicates nothing — the claim
says 5xx codes are classified transient. -/
theorem isAuthClearingError_500_transient_violation :
    isAuthClearingError 500 "" = true ∧
    isAuthClearingError 405 "" = true ∧
    hasBadSessionKeyword "" = false ∧
    (500 : Int) ≠ 401 ∧ (500 : Int) ≠ 403 ∧ (500 : Int) ≠ 419 ∧ (500 : Int) ≠ 428 ∧
    (405 : Int) ≠ 401 ∧ (405 : Int) ≠ 403 ∧ (405 : Int) ≠ 419 ∧ (405 : Int) ≠ 428 := by
  decide

/-- C7 amended: `isAuthClearingError` classifies a disconnect as "auth must
be cleared" exactly when the code is one of 401, 403, 405, 419, 428 or 500,
or the lowercased reason contains one of the bad-session keywords; with a
keyword-free reason, 408, 1006, 503, 429 and the 5xx codes other than 500
are not auth-clearing and their fix action is a reconnect variant rather
than `clear_auth`. -/
theorem isAuthClearing_iff (c2 : Int) (r2 : String) :
    isAuthClearingError c2 r2 = true ↔
      (c2 = 428 ∨ c2 = 405 ∨ c2 = 500 ∨ c2 = 401 ∨ c2 = 403 ∨ c2 = 419 ∨
       hasBadSessionKeyword r2 = true) := by
  simp only [isAuthClearingError, authClearingCodes, List.contains_cons,
    List.contains_nil, Bool.or_eq_true, beq_iff_eq]
  tauto

theorem isAuthClearingError_characterization (reason : String)
    (hs : strContains (strLower reason) "session" = false)
    (ha : strContains (strLower reason) "auth" = false)
    (hb : hasBadSessionKeyword reason = false) :
    (∀ (c2 : Int) (r2 : String),
      isAuthClearingError c2 r2 = true ↔
        (c2 = 428 ∨ c2 = 405 ∨ c2 = 500 ∨ c2 = 401 ∨ c2 = 403 ∨ c2 = 419 ∨
         hasBadSessionKeyword r2 = true)) ∧
    isAuthClearingError 408 reason = false ∧
    isAuthClearingError 1006 reason = false ∧
    isAuthClearingError 503 reason = false ∧
    isAuthClearingError 429 reason = false ∧
    getErrorFixAction 408 reason = FixAction.reconnectFast ∧
    getErrorFixAction 503 reason = FixAction.waitAndRetry ∧
    getErrorFixAction 429 reason = FixAction.rateLimitWait ∧
    getErrorFixAction 1006 reason = FixAction.reconnect ∧
    (∀ c2 : Int, 500 < c2 → c2 ≤ 599 → c2 ≠ 503 →
      isAuthClearingError c2 reason = false ∧
      getErrorFixAction c2 reason = FixAction.reconnect) := by
  refine ⟨isAuthClearing_iff, ?_, ?_, ?_, ?_, ?_, ?_, ?_, ?_, ?_⟩
  · simp [isAuthClearingError, authClearingCodes, hb]
  · simp [isAuthClearingError, authClearingCodes, hb]
  · simp [isAuthClearingError, authClearingCodes, hb]
  · simp [isAuthClearingError, authClearingCodes, hb]
  · simp [getErrorFixAction]
  · simp [getErrorFixAction]
  · simp [getErrorFixAction]
  · simp [getErrorFixAction, hs, ha]
  · intro c2 h1 h2 h3
    constructor
    · have hiff := isAuthClearing_iff c2 reason
      rw [hb] at hiff
      simp only [Bool.false_eq_true, or_false] at hiff
      rw [Bool.eq_false_iff, Ne, hiff]
      omega
    · simp only [getErrorFixAction, hs, ha]
      rw [if_neg (by omega : ¬ c2 = 428), if_neg (by omega : ¬ c2 = 405),
        if_neg (by omega : ¬ c2 = 500), if_neg (by omega : ¬ c2 = 408),
        if_neg (by omega : ¬ c2 = 401), if_neg (by omega : ¬ c2 = 403),
        if_neg (by omega : ¬ c2 = 503), if_neg (by omega : ¬ c2 = 429),
        if_neg (by omega : ¬ c2 = 1006)]
      simp

theorem isAuthClearingError_characterization_witness :
    isAuthClearingError 408 "" = false ∧ isAuthClearingError 1006 "" = false :=
  ⟨((isAuthClearingError_characterization "" (by decide) (by decide)
      (by decide)).2).1,
   (((isAuthClearingError_characterization "" (by decide) (by decide)
      (by decide)).2).2).1⟩

/-- C6 counterexample: for close code 1006 with an empty reason at attempt 1
the code computes 2000 ms (multiplier 1: `getErrorFixAction` maps 1006 with
no session/auth keyword to the plain reconnect action), while the claimed
table demands 2000 × 1.2 = 2400 ms. -/
theorem reconnectDelay_1006_mismatch :
    reconnectDelay 1006 "" 1 = 2000 ∧
    claimedMultiplierDelay 1006 1 = 2400 ∧
    reconnectDelay 1006 "" 1 ≠ claimedMultiplierDelay 1006 1 := by
  have hfix : getErrorFixAction 1006 "" = FixAction.reconnect := by decide
  have hbase : baseDelay 1 = 2000 := by norm_num [baseDelay]
  have e1 : reconnectDelay 1006 "" 1 = 2000 := by
    rw [reconnectDelay, hfix]
    simp [calculateReconnectDelay, hbase]
  have e2 : claimedMultiplierDelay 1006 1 = 2400 := by
    norm_num [claimedMultiplierDelay, hbase]
  refine ⟨e1, e2, ?_⟩
  rw [e1, e2]
  norm_num

/-- C6 amended: the computed reconnect delay equals the base schedule
`{2, 4, 8, 16, 30}` seconds indexed by `min(k-1, 4)`, scaled ×2 for 503,
×3 for 429, ×0.5 (min 1 s) for 408, ×1.5 (min 3 s) for 428/401/403, ×0.8
(min 2 s) for 405; 500 gets ×1.5 (min 3 s) when the reason mentions a
session and ×1 otherwise; 1006 and all remaining codes get ×1.5 (min 3 s)
when the reason contains "session" or "auth" and ×1 otherwise (there is no
×1.2 multiplier); in particular close(503, attempt 2) waits 8 s ≥ 8 s and
close(408, attempt 1) waits 1 s ≤ 2 s. -/
theorem reconnectDelay_table (code : Int) (reason : String) (attempt : Nat) :
    reconnectDelay code reason attempt = amendedMultiplierDelay code reason attempt ∧
    reconnectDelay 503 "" 2 = 8000 ∧ (8000 : ℚ) ≥ 8000 ∧
    reconnectDelay 408 "" 1 = 1000 ∧ (1000 : ℚ) ≤ 2000 := by
  have e503 : reconnectDelay 503 "" 2 = 8000 := by
    have hfix : getErrorFixAction 503 "" = FixAction.waitAndRetry := by decide
    have hbase : baseDelay 2 = 4000 := by norm_num [baseDelay]
    rw [reconnectDelay, hfix]
    simp [calculateReconnectDelay, hbase]
    norm_num
  have e408 : reconnectDelay 408 "" 1 = 1000 := by
    have hfix : getErrorFixAction 408 "" = FixAction.reconnectFast := by decide
    have hbase : baseDelay 1 = 2000 := by norm_num [baseDelay]
    rw [reconnectDelay, hfix]
    simp [calculateReconnectDelay, hbase]
    norm_num
  refine ⟨?_, e503, by norm_num, e408, by norm_num⟩
  by_cases h428 : code = 428
  · subst h428
    norm_num [reconnectDelay, getErrorFixAction, calculateReconnectDelay,
      amendedMultiplierDelay]
  by_cases h405 : code = 405
  · subst h405
    norm_num [reconnectDelay, getErrorFixAction, calculateReconnectDelay,
      amendedMultiplierDelay]
  by_cases h500 : code = 500
  · subst h500
    by_cases hkw : (strContains (strLower reason) "bad session" ||
        strContains (strLower reason) "session") = true
    · simp [reconnectDelay, getErrorFixAction, calculateReconnectDelay,
        amendedMultiplierDelay, hkw]
    · simp [reconnectDelay, getErrorFixAction, calculateReconnectDelay,
        amendedMultiplierDelay, hkw]
  by_cases h408 : code = 408
  · subst h408
    norm_num [reconnectDelay, getErrorFixAction, calculateReconnectDelay,
      amendedMultiplierDelay]
  by_cases h401 : code = 401
  · subst h401
    norm_num [reconnectDelay, getErrorFixAction, calculateReconnectDelay,
      amendedMultiplierDelay]
  by_cases h403 : code = 403
  · subst h403
    norm_num [reconnectDelay, getErrorFixAction, calculateReconnectDelay,
      amendedMultiplierDelay]
  by_cases h503 : code = 503
  · subst h503
    norm_num [reconnectDelay, getErrorFixAction, calculateReconnectDelay,
      amendedMultiplierDelay]
  by_cases h429 : code = 429
  · subst h429
    norm_num [reconnectDelay, getErrorFixAction, calculateReconnectDelay,
      amendedMultiplierDelay]
  by_cases hkw : (strContains (strLower reason) "session" ||
      strContains (strLower reason) "auth") = true
  · by_cases h1006 : code = 1006
    · subst h1006
      simp [reconnectDelay, getErrorFixAction, calculateReconnectDelay,
        amendedMultiplierDelay, hkw]
    · simp [reconnectDelay, getErrorFixAction, calculateReconnectDelay,
        amendedMultiplierDelay, hkw, h428, h405, h500, h408, h401, h403,
        h503, h429, h1006]
  · by_cases h1006 : code = 1006
    · subst h1006
      simp [reconnectDelay, getErrorFixAction, calculateReconnectDelay,
        amendedMultiplierDelay, hkw]
    · simp [reconnectDelay, getErrorFixAction, calculateReconnectDelay,
        amendedMultiplierDelay, hkw, h428, h405, h500, h408, h401, h403,
        h503, h429, h1006]

/-! ## Inbound ack discipline -/

/-- C2 counterexample: a `message` stanza carrying an `unavailable` child and
no `enc` child, whose placeholder-resend request does not resolve, is ack'd
twice — once immediately (line 651) and once after processing (line 711) —
so the "never twice" part of the claim fails. -/
theorem handleMessage_unavailable_double_ack :
    (handleMessage { flood := false, ignored := false, unavailable := true,
                     hasEnc := false, resendResolved := false,
                     outcome := DecryptOutcome.cipherFailure }).1
      = [Ack.plain, Ack.plain] ∧
    (handleMessage { flood := false, ignored := false, unavailable := true,
                     hasEnc := false, resendResolved := false,
                     outcome := DecryptOutcome.cipherFailure }).1.length = 2 := by
  decide

/-- C2 amended: every inbound `message`, `receipt`, `notification` or `call`
stanza the receiver pipeline handles is ack'd at least once and at most
twice, and exactly once except on the unavailable-placeholder path that is
not resolved (where one ack is sent immediately and a second after
processing); the ack carries the `ParsingError` NACK code exactly when the
decrypt ended in the missing-keys stub. -/
theorem inbound_ack_discipline (n : InboundMessage) (ig : Bool) :
    1 ≤ (handleMessage n).1.length ∧
    ((handleMessage n).1.length = 1 ∨ (handleMessage n).1.length = 2) ∧
    ((handleMessage n).1.length = 2 ↔
      (n.flood = false ∧ n.ignored = false ∧ n.unavailable = true ∧
       n.hasEnc = false ∧ n.resendResolved = false)) ∧
    (Ack.nackParsingError ∈ (handleMessage n).1 ↔
      (n.flood = false ∧ n.ignored = false ∧
       ¬(n.unavailable = true ∧ n.hasEnc = false ∧ n.resendResolved = true) ∧
       n.outcome = DecryptOutcome.missingKeys)) ∧
    (handleReceipt ig).1.length = 1 ∧
    (handleNotification ig).1.length = 1 ∧
    handleCall.1.length = 1 := by
  rcases n with ⟨f, i, u, e, r, o⟩
  cases f <;> cases i <;> cases u <;> cases e <;> cases r <;> cases o <;>
    cases ig <;> decide

/-! ## Flood guard -/

theorem checkFlood_all_within (floodWindowMs threshold : Nat) (ts : List Nat)
    (now : Nat) (h : ∀ t ∈ ts, now - t < floodWindowMs) :
    checkFlood floodWindowMs threshold ts now
      = (decide (threshold < ts.length + 1), ts ++ [now]) := by
  unfold checkFlood
  have hfilter : ts.filter (fun t => now - t < floodWindowMs) = ts := by
    rw [List.filter_eq_self]
    intro t ht
    exact decide_eq_true (h t ht)
  rw [hfilter]
  simp [List.length_append]

theorem checkFlood_all_expired (floodWindowMs threshold : Nat) (ts : List Nat)
    (now : Nat) (h : ∀ t ∈ ts, floodWindowMs ≤ now - t) :
    checkFlood floodWindowMs threshold ts now
      = (decide (threshold < 1), [now]) := by
  unfold checkFlood
  have hfilter : ts.filter (fun t => now - t < floodWindowMs) = [] := by
    rw [List.filter_eq_nil_iff]
    intro t ht
    simp only [decide_eq_true_eq, not_lt]
    exact h t ht
  rw [hfilter]
  simp

theorem handleMessage_normal (b : Bool) :
    handleMessage { flood := b, ignored := false, unavailable := false,
                    hasEnc := true, resendResolved := false,
                    outcome := DecryptOutcome.success }
      = ([Ack.plain], !b) := by
  cases b <;> decide

theorem processFloodSequence_append (wm thr : Nat) (pre l1 l2 : List Nat) :
    processFloodSequence wm thr pre (l1 ++ l2) =
      ((processFloodSequence wm thr pre l1).1 ++
         (processFloodSequence wm thr (processFloodSequence wm thr pre l1).2 l2).1,
       (processFloodSequence wm thr (processFloodSequence wm thr pre l1).2 l2).2) := by
  induction l1 generalizing pre with
  | nil => simp [processFloodSequence]
  | cons a t ih => simp [processFloodSequence, ih]

theorem processFloodSequence_spec (wm thr : Nat) (l : List Nat) :
    ∀ (pre : List Nat),
      (∀ x ∈ pre, ∀ y ∈ l, y - x < wm) →
      (∀ x ∈ l, ∀ y ∈ l, y - x < wm) →
      processFloodSequence wm thr pre l =
        ((List.range l.length).map (fun i =>
            handleMessage { flood := decide (thr < pre.length + i + 1),
                            ignored := false, unavailable := false, hasEnc := true,
                            resendResolved := false,
                            outcome := DecryptOutcome.success }),
         pre ++ l) := by
  induction l with
  | nil =>
    intro pre _ _
    simp [processFloodSequence]
  | cons now rest ih =>
    intro pre h1 h2
    have hck : checkFlood wm thr pre now
        = (decide (thr < pre.length + 1), pre ++ [now]) :=
      checkFlood_all_within wm thr pre now
        (fun t ht => h1 t ht now (List.mem_cons_self now rest))
    have hpre2 : ∀ x ∈ pre ++ [now], ∀ y ∈ rest, y - x < wm := by
      intro x hx y hy
      rcases List.mem_append.mp hx with hx1 | hx2
      · exact h1 x hx1 y (List.mem_cons_of_mem now hy)
      · rw [List.mem_singleton.mp hx2]
        exact h2 now (List.mem_cons_self now rest) y (List.mem_cons_of_mem now hy)
    have hrest : ∀ x ∈ rest, ∀ y ∈ rest, y - x < wm := by
      intro x hx y hy
      exact h2 x (List.mem_cons_of_mem now hx) y (List.mem_cons_of_mem now hy)
    have hr := ih (pre ++ [now]) hpre2 hrest
    show (let fl := checkFlood wm thr pre now
          let r := processFloodSequence wm thr fl.2 rest
          (handleMessage { flood := fl.1, ignored := false, unavailable := false,
                           hasEnc := true, resendResolved := false,
                           outcome := DecryptOutcome.success } :: r.1, r.2)) = _
    simp only [hck, hr, Prod.mk.injEq]
    constructor
    · rw [List.length_cons, List.range_succ_eq_map, List.map_cons, List.map_map]
      simp only [List.cons.injEq]
      constructor
      · simp
      · apply List.map_congr_left
        intro i _
        simp only [Function.comp_apply]
        apply congrArg
        have hX : (pre ++ [now]).length + i + 1 = pre.length + (i + 1) + 1 := by
          simp only [List.length_append, List.length_cons, List.length_nil]
          omega
        rw [hX]
    · simp

/-- C5: with `floodThreshold = 50` and `floodWindowMs = 10000`, when 51
message stanzas arrive from one jid within 10 seconds, every one of the 51
is ack'd (each handler run sends exactly one ack) but only the first 50 are
forwarded to the decrypt/upsert handlers — the 51st is dropped — and a
message arriving once the 10-second window has elapsed is forwarded
again. -/
theorem flood_guard_spec (l : List Nat) (nxt : Nat)
    (hlen : l.length = 51)
    (hspread : ∀ x ∈ l, ∀ y ∈ l, y - x < 10000)
    (hnxt : ∀ t ∈ l, t + 10000 ≤ nxt) :
    (((processFloodSequence 10000 50 [] l).1.map (fun r => r.1.length)).sum = 51) ∧
    (((processFloodSequence 10000 50 [] l).1.filter (fun r => r.2)).length = 50) ∧
    ((processFloodSequence 10000 50 [] l).1.getLast?.map (fun r => r.2)
      = some false) ∧
    ((processFloodSequence 10000 50 [] (l ++ [nxt])).1.getLast?.map (fun r => r.2)
      = some true) := by
  have hspec := processFloodSequence_spec 10000 50 l []
    (by intro x hx y hy; exact absurd hx (List.not_mem_nil x)) hspread
  have hout : (processFloodSequence 10000 50 [] l).1
      = (List.range 51).map (fun i =>
          handleMessage { flood := decide (50 < 0 + i + 1),
                          ignored := false, unavailable := false, hasEnc := true,
                          resendResolved := false,
                          outcome := DecryptOutcome.success }) := by
    rw [hspec]
    simp [hlen]
  have hstate : (processFloodSequence 10000 50 [] l).2 = l := by
    rw [hspec]
    simp
  refine ⟨?_, ?_, ?_, ?_⟩
  · rw [hout]; decide
  · rw [hout]; decide
  · rw [hout]; decide
  · rw [processFloodSequence_append 10000 50 [] l [nxt], hstate]
    have hck : checkFlood 10000 50 l nxt = (decide (50 < 1), [nxt]) :=
      checkFlood_all_expired 10000 50 l nxt (fun t ht => by have := hnxt t ht; omega)
    have hone : (processFloodSequence 10000 50 l [nxt]).1
        = [handleMessage { flood := false, ignored := false, unavailable := false,
                           hasEnc := true, resendResolved := false,
                           outcome := DecryptOutcome.success }] := by
      show (let fl := checkFlood 10000 50 l nxt
            let r := processFloodSequence 10000 50 fl.2 []
            (handleMessage { flood := fl.1, ignored := false, unavailable := false,
                             hasEnc := true, resendResolved := false,
                             outcome := DecryptOutcome.success } :: r.1, r.2)).1 = _
    
      simp only [hck, processFloodSequence]
      norm_num
    rw [hone, List.getLast?_concat]
    rw [handleMessage_normal false]
    rfl

theorem flood_guard_spec_witness :
    ((processFloodSequence 10000 50 [] (List.range 51)).1.map
      (fun r => r.1.length)).sum = 51 :=
  (flood_guard_spec (List.range 51) 10050 (by simp)
    (by intro x hx y hy; have := List.mem_range.mp hy; omega)
    (by intro t ht; have := List.mem_range.mp ht; omega)).1

/-! ## Offline batch ordering -/

/-- C4 counterexample: the server delivers offline stanzas `o1 = ⟨true,1⟩`,
`o2 = ⟨true,2⟩` and then live `l1 = ⟨false,3⟩`, yet the system has an
execution whose handler-completion order is `[o1, l1, o2]` — the live
stanza is processed before the still-queued offline stanza `o2`.  This
interleaving is realizable in the source: the offline worker awaits inside
`handleMessage(o1)` (network sends), during which the live stanza is
dispatched through `processNodeWithBuffer` and completes; `o2` is only
dequeued afterwards. -/
theorem live_processed_before_offline :
    RecvReaches ⟨[⟨true, 1⟩, ⟨true, 2⟩, ⟨false, 3⟩], [], [], []⟩
      ⟨[], [], [], [⟨true, 1⟩, ⟨false, 3⟩, ⟨true, 2⟩]⟩ :=
  Relation.ReflTransGen.head
    (RecvStep.arriveOffline _ ⟨true, 1⟩ _ rfl rfl)
    (Relation.ReflTransGen.head
      (RecvStep.arriveOffline _ ⟨true, 2⟩ _ rfl rfl)
      (Relation.ReflTransGen.head
        (RecvStep.arriveLive _ ⟨false, 3⟩ _ rfl rfl)
        (Relation.ReflTransGen.head
          (RecvStep.procOffline _ ⟨true, 1⟩ _ rfl)
          (Relation.ReflTransGen.head
            (RecvStep.procLive _ ⟨false, 3⟩ _ rfl)
            (Relation.ReflTransGen.head
              (RecvStep.procOffline _ ⟨true, 2⟩ _ rfl)
              Relation.ReflTransGen.refl)))))

theorem recv_invariant (arr : List Stanza) (s : RecvState)
    (h : RecvReaches ⟨arr, [], [], []⟩ s) :
    (∀ t ∈ s.offlineQueue, t.offline = true) ∧
    (∀ t ∈ s.livePending, t.offline = false) ∧
    (s.processed.filter (fun t => t.offline) ++ s.offlineQueue ++
       s.pendingArrivals.filter (fun t => t.offline)
     = arr.filter (fun t => t.offline)) ∧
    (s.processed.filter (fun t => !t.offline) ++ s.livePending ++
       s.pendingArrivals.filter (fun t => !t.offline)
     = arr.filter (fun t => !t.offline)) := by
  induction h with
  | refl => simp
  | tail hab hbc ih =>
    obtain ⟨ihQ, ihL, ihO, ihV⟩ := ih
    cases hbc with
    | arriveOffline st rest hp ho =>
      rw [hp] at ihO ihV
      refine ⟨?_, ihL, ?_, ?_⟩
      · intro t ht
        rcases List.mem_append.mp ht with h1 | h2
        · exact ihQ t h1
        · rw [List.mem_singleton.mp h2]; exact ho
      · rw [← ihO]
        simp [List.filter_cons, ho, List.append_assoc]
      · rw [← ihV]
        simp [List.filter_cons, ho]
    | arriveLive st rest hp ho =>
      rw [hp] at ihO ihV
      refine ⟨ihQ, ?_, ?_, ?_⟩
      · intro t ht
        rcases List.mem_append.mp ht with h1 | h2
        · exact ihL t h1
        · rw [List.mem_singleton.mp h2]; exact ho
      · rw [← ihO]
        simp [List.filter_cons, ho]
      · rw [← ihV]
        simp [List.filter_cons, ho, List.append_assoc]
    | procOffline st rest hq =>
      have ho : st.offline = true := ihQ st (by rw [hq]; exact List.mem_cons_self st rest)
      rw [hq] at ihO
      refine ⟨?_, ihL, ?_, ?_⟩
      · intro t ht
        exact ihQ t (by rw [hq]; exact List.mem_cons_of_mem st ht)
      · rw [← ihO]
        simp [List.filter_append, List.filter_cons, ho, List.append_assoc]
      · rw [← ihV]
        simp [List.filter_append, List.filter_cons, ho]
    | procLive st rest hq =>
      have ho : st.offline = false := ihL st (by rw [hq]; exact List.mem_cons_self st rest)
      rw [hq] at ihV
      refine ⟨ihQ, ?_, ?_, ?_⟩
      · intro t ht
        exact ihL t (by rw [hq]; exact List.mem_cons_of_mem st ht)
      · rw [← ihO]
        simp [List.filter_append, List.filter_cons, ho]
      · rw [← ihV]
        simp [List.filter_append, List.filter_cons, ho, List.append_assoc]

/-- C4 amended: in every execution of the receiver from a fresh state, the
offline stanzas appear in the handler-completion order as a prefix of their
arrival order, and likewise the live stanzas among themselves; but a live
stanza bypasses the offline queue, so it may complete before
earlier-arrived offline stanzas that are still queued (see the
counterexample execution). -/
theorem offline_live_order_preserved (arr : List Stanza) (s : RecvState)
    (h : RecvReaches ⟨arr, [], [], []⟩ s) :
    (∃ restO, s.processed.filter (fun t => t.offline) ++ restO
        = arr.filter (fun t => t.offline)) ∧
    (∃ restL, s.processed.filter (fun t => !t.offline) ++ restL
        = arr.filter (fun t => !t.offline)) := by
  obtain ⟨_, _, hO, hV⟩ := recv_invariant arr s h
  rw [List.append_assoc] at hO hV
  exact ⟨⟨_, hO⟩, ⟨_, hV⟩⟩

theorem offline_live_order_preserved_witness :
    (∃ restO, (RecvState.mk [⟨true, 0⟩] [] [] []).processed.filter
        (fun t => t.offline) ++ restO
        = ([⟨true, 0⟩] : List Stanza).filter (fun t => t.offline)) ∧
    (∃ restL, (RecvState.mk [⟨true, 0⟩] [] [] []).processed.filter
        (fun t => !t.offline) ++ restL
        = ([⟨true, 0⟩] : List Stanza).filter (fun t => !t.offline)) :=
  offline_live_order_preserved [⟨true, 0⟩] ⟨[⟨true, 0⟩], [], [], []⟩
    Relation.ReflTransGen.refl

/-! ## Transactional key store -/

theorem tGetStep_depth {V : Type} (m : TxM V) (k : SKey) :
    (tGetStep m k).transactionsInProgress = m.transactionsInProgress := by
  unfold tGetStep
  split
  · split
    · rfl
    · split <;> rfl
  · rfl

theorem tGetStep_store {V : Type} (m : TxM V) (k : SKey) :
    (tGetStep m k).store = m.store := by
  unfold tGetStep
  split
  · split
    · rfl
    · split <;> rfl
  · rfl

theorem storeSetCount_append {V : Type} (l1 l2 : List (TxEv V)) :
    storeSetCount (l1 ++ l2) = storeSetCount l1 + storeSetCount l2 := by
  induction l1 with
  | nil => simp [storeSetCount]
  | cons e t ih =>
    cases e <;> simp [storeSetCount, ih]
    omega

theorem tGetStep_count {V : Type} (m : TxM V) (k : SKey) :
    storeSetCount (tGetStep m k).log = storeSetCount m.log := by
  unfold tGetStep
  split
  · split
    · simp [storeSetCount_append, storeSetCount]
    · split <;> simp [storeSetCount_append, storeSetCount]
  · simp [storeSetCount_append, storeSetCount]

theorem tSetStep_inTx {V : Type} (m : TxM V) (data : KV (Option V))
    (h : 1 ≤ m.transactionsInProgress) :
    (tSetStep m data).transactionsInProgress = m.transactionsInProgress ∧
    (tSetStep m data).store = m.store ∧
    (tSetStep m data).log = m.log := by
  unfold tSetStep
  rw [if_pos (show 0 < m.transactionsInProgress from h)]
  exact ⟨rfl, rfl, rfl⟩

theorem commitLoop_frame {V : Type} (fail : Nat → Bool) (a R d : Nat) (m : TxM V) :
    (commitLoop fail a R d m).transactionsInProgress = m.transactionsInProgress ∧
    (commitLoop fail a R d m).transactionCache = m.transactionCache ∧
    (commitLoop fail a R d m).mutations = m.mutations := by
  induction R generalizing a d m with
  | zero => exact ⟨rfl, rfl, rfl⟩
  | succ t ih =>
    unfold commitLoop
    split
    · exact ih (a + 1) (d * 2) _
    · exact ⟨rfl, rfl, rfl⟩

theorem commitLoop_allfail {V : Type} (R : Nat) :
    ∀ (a d : Nat) (m : TxM V),
    commitLoop (fun _ => true) a R d m
      = { m with log := m.log ++ failScheduleEvents V d R } := by
  induction R with
  | zero =>
    intro a d m
    show m = _
    simp [failScheduleEvents]
  | succ t ih =>
    intro a d m
    unfold commitLoop
    rw [if_pos rfl]
    rw [ih (a + 1) (d * 2) _]
    simp [failScheduleEvents]

theorem delaysOf_failSchedule {V : Type} (R : Nat) :
    ∀ d : Nat, delaysOf (failScheduleEvents V d R)
      = (List.range R).map (fun i => d * 2 ^ i) := by
  induction R with
  | zero => intro d; rfl
  | succ t ih =>
    intro d
    rw [failScheduleEvents]
    show delaysOf (TxEv.storeSet false :: TxEv.delayed d :: failScheduleEvents V (d * 2) t) = _
    rw [show delaysOf (TxEv.storeSet (V := V) false :: TxEv.delayed d :: failScheduleEvents V (d * 2) t)
        = d :: delaysOf (failScheduleEvents V (d * 2) t) from rfl]
    rw [ih (d * 2)]
    rw [List.range_succ_eq_map, List.map_cons, List.map_map]
    simp only [pow_zero, Nat.mul_one, List.cons.injEq, true_and]
    apply List.map_congr_left
    intro i _
    simp only [Function.comp_apply]
    rw [pow_succ]
    ring

theorem runOps_append {V : Type} (fail : Nat → Bool) (R d : Nat)
    (l1 l2 : List (TxOp V)) (m : TxM V) :
    runOps fail R d (l1 ++ l2) m = runOps fail R d l2 (runOps fail R d l1 m) := by
  induction l1 generalizing m with
  | nil => rfl
  | cons op t ih =>
    rw [List.cons_append]
    show runOps fail R d (t ++ l2) (runOp fail R d op m) = _
    rw [ih]
    rfl

theorem runOp_tx_eq {V : Type} (fail : Nat → Bool) (R d : Nat)
    (sub : List (TxOp V)) (m : TxM V) :
    runOp fail R d (TxOp.tx sub) m =
      (let m2 := runOps fail R d sub
         { m with transactionsInProgress := m.transactionsInProgress + 1 }
       let m3 := if m2.transactionsInProgress = 1 then
           (if m2.mutations.isEmpty then m2 else commitLoop fail 0 R d m2)
         else m2
       let m4 : TxM V := { m3 with
         transactionsInProgress := m3.transactionsInProgress - 1 }
       if m4.transactionsInProgress = 0 then
         { m4 with transactionCache := [], mutations := [] }
       else m4) := rfl

mutual

theorem runOp_inTx {V : Type} (fail : Nat → Bool) (R d : Nat) (op : TxOp V)
    (m : TxM V) (h : 1 ≤ m.transactionsInProgress) :
    (runOp fail R d op m).transactionsInProgress = m.transactionsInProgress ∧
    (runOp fail R d op m).store = m.store ∧
    storeSetCount (runOp fail R d op m).log = storeSetCount m.log := by
  cases op with
  | get k => exact ⟨tGetStep_depth m k, tGetStep_store m k, tGetStep_count m k⟩
  | set data =>
    obtain ⟨h1, h2, h3⟩ := tSetStep_inTx m data h
    refine ⟨h1, h2, ?_⟩
    show storeSetCount (tSetStep m data).log = storeSetCount m.log
    rw [h3]
  | tx sub =>
    rw [runOp_tx_eq]
    obtain ⟨d2, s2, c2⟩ := runOps_inTx fail R d sub
      { m with transactionsInProgress := m.transactionsInProgress + 1 }
      (by show 1 ≤ m.transactionsInProgress + 1; omega)
    set m2 := runOps fail R d sub
      { m with transactionsInProgress := m.transactionsInProgress + 1 } with hm2def
    have hd2 : m2.transactionsInProgress = m.transactionsInProgress + 1 := d2
    have hs2 : m2.store = m.store := s2
    have hc2 : storeSetCount m2.log = storeSetCount m.log := c2
    simp only []
    rw [if_neg (show ¬ m2.transactionsInProgress = 1 by omega)]
    rw [if_neg (show ¬ (m2.transactionsInProgress - 1 = 0) by omega)]
    refine ⟨?_, ?_, ?_⟩
    · show m2.transactionsInProgress - 1 = m.transactionsInProgress
      omega
    · exact hs2
    · exact hc2

theorem runOps_inTx {V : Type} (fail : Nat → Bool) (R d : Nat)
    (ops : List (TxOp V)) (m : TxM V) (h : 1 ≤ m.transactionsInProgress) :
    (runOps fail R d ops m).transactionsInProgress = m.transactionsInProgress ∧
    (runOps fail R d ops m).store = m.store ∧
    storeSetCount (runOps fail R d ops m).log = storeSetCount m.log := by
  cases ops with
  | nil => exact ⟨rfl, rfl, rfl⟩
  | cons op rest =>
    obtain ⟨d1, s1, c1⟩ := runOp_inTx fail R d op m h
    obtain ⟨d2, s2, c2⟩ := runOps_inTx fail R d rest (runOp fail R d op m)
      (by rw [d1]; exact h)
    exact ⟨d2.trans d1, s2.trans s1, c2.trans c1⟩

end

theorem kvGet_kvSetMany_notin {A : Type} (data : KV A) :
    ∀ (m : KV A) (k : SKey), (∀ p ∈ data, p.1 ≠ k) →
    kvGet (kvSetMany m data) k = kvGet m k := by
  induction data with
  | nil => intro m k _; rfl
  | cons p rest ih =>
    intro m k hne
    show kvGet (kvSetMany (p :: m) rest) k = kvGet m k
    rw [ih (p :: m) k (fun q hq => hne q (List.mem_cons_of_mem p hq))]
    obtain ⟨k2, v⟩ := p
    have hk : ¬ k = k2 := by
      intro he
      exact hne (k2, v) (List.mem_cons_self _ rest) he.symm
    show (if k = k2 then some v else kvGet m k) = kvGet m k
    rw [if_neg hk]

mutual

theorem runOp_tcache {V : Type} (fail : Nat → Bool) (R d : Nat) (k : SKey)
    (cv : Option V) (op : TxOp V) (m : TxM V)
    (h : 1 ≤ m.transactionsInProgress) (hwf : writeFreeOp k op = true)
    (hc : kvGet m.transactionCache k = some cv) :
    kvGet (runOp fail R d op m).transactionCache k = some cv := by
  cases op with
  | get k2 =>
    show kvGet (tGetStep m k2).transactionCache k = some cv
    unfold tGetStep
    rw [if_pos (show 0 < m.transactionsInProgress from h)]
    cases hcase : kvGet m.transactionCache k2 with
    | some cached =>
      exact hc
    | none =>
      cases hs : kvGet m.store k2 with
      | some v =>
        have hk : ¬ k = k2 := by
          intro he
          rw [he, hcase] at hc
          exact Option.noConfusion hc
        show (if k = k2 then some (some v) else kvGet m.transactionCache k) = some cv
        rw [if_neg hk]
        exact hc
      | none =>
        exact hc
  | set data =>
    show kvGet (tSetStep m data).transactionCache k = some cv
    unfold tSetStep
    rw [if_pos (show 0 < m.transactionsInProgress from h)]
    show kvGet (kvSetMany m.transactionCache data) k = some cv
    have hd : ∀ p ∈ data, p.1 ≠ k := by
      intro p hp
      have := List.all_eq_true.mp hwf p hp
      simpa using this
    rw [kvGet_kvSetMany_notin data m.transactionCache k hd]
    exact hc
  | tx sub =>
    rw [runOp_tx_eq]
    have hd2 : (runOps fail R d sub
        { m with transactionsInProgress := m.transactionsInProgress + 1
        }).transactionsInProgress = m.transactionsInProgress + 1 :=
      (runOps_inTx fail R d sub _
        (by show 1 ≤ m.transactionsInProgress + 1; omega)).1
    have htc := runOps_tcache fail R d k cv sub
      { m with transactionsInProgress := m.transactionsInProgress + 1 }
      (by show 1 ≤ m.transactionsInProgress + 1; omega) hwf hc
    set m2 := runOps fail R d sub
      { m with transactionsInProgress := m.transactionsInProgress + 1 } with hm2def
    simp only []
    rw [if_neg (show ¬ m2.transactionsInProgress = 1 by omega)]
    rw [if_neg (show ¬ (m2.transactionsInProgress - 1 = 0) by omega)]
    exact htc

theorem runOps_tcache {V : Type} (fail : Nat → Bool) (R d : Nat) (k : SKey)
    (cv : Option V) (ops : List (TxOp V)) (m : TxM V)
    (h : 1 ≤ m.transactionsInProgress) (hwf : writeFreeOps k ops = true)
    (hc : kvGet m.transactionCache k = some cv) :
    kvGet (runOps fail R d ops m).transactionCache k = some cv := by
  cases ops with
  | nil => exact hc
  | cons op rest =>
    have hsplit := hwf
    rw [show writeFreeOps k (op :: rest)
        = (writeFreeOp k op && writeFreeOps k rest) from rfl,
      Bool.and_eq_true] at hsplit
    have h1 := runOp_tcache fail R d k cv op m h hsplit.1 hc
    have hdep := (runOp_inTx fail R d op m h).1
    exact runOps_tcache fail R d k cv rest (runOp fail R d op m)
      (by rw [hdep]; exact h) hsplit.2 h1

end

theorem visibility_aux {V : Type} (fail : Nat → Bool) (R d : Nat) (k : SKey)
    (v : V) (mid : List (TxOp V)) (m : TxM V)
    (h : 1 ≤ m.transactionsInProgress) (hwf : writeFreeOps k mid = true) :
    (runOps fail R d (TxOp.set [(k, some v)] :: (mid ++ [TxOp.get k])) m).log
      = (runOps fail R d (TxOp.set [(k, some v)] :: mid) m).log
          ++ [TxEv.got k (some v)] := by
  have hstep : runOps fail R d (TxOp.set [(k, some v)] :: (mid ++ [TxOp.get k])) m
      = runOps fail R d (mid ++ [TxOp.get k])
          (runOp fail R d (TxOp.set [(k, some v)]) m) := rfl
  rw [hstep, runOps_append]
  set mset := runOp fail R d (TxOp.set [(k, some v)]) m with hmset
  have hd1 : mset.transactionsInProgress = m.transactionsInProgress :=
    (runOp_inTx fail R d _ m h).1
  have htc1 : kvGet mset.transactionCache k = some (some v) := by
    show kvGet (tSetStep m [(k, some v)]).transactionCache k = some (some v)
    unfold tSetStep
    rw [if_pos (show 0 < m.transactionsInProgress from h)]
    show (if k = k then some (some v) else kvGet m.transactionCache k)
        = some (some v)
    rw [if_pos rfl]
  set M2 := runOps fail R d mid mset with hM2
  have hd2 : M2.transactionsInProgress = m.transactionsInProgress := by
    rw [(runOps_inTx fail R d mid mset (by omega)).1, hd1]
  have htc2 : kvGet M2.transactionCache k = some (some v) :=
    runOps_tcache fail R d k (some v) mid mset (by omega) hwf htc1
  show (tGetStep M2 k).log = M2.log ++ [TxEv.got k (some v)]
  unfold tGetStep
  rw [if_pos (show 0 < M2.transactionsInProgress by omega), htc2]

theorem runOp_tx_allfail {V : Type} (R d : Nat) (ops : List (TxOp V))
    (m0 : TxM V) (h0 : m0.transactionsInProgress = 0) :
    (runOp (fun _ => true) R d (TxOp.tx ops) m0).store = m0.store ∧
    (runOp (fun _ => true) R d (TxOp.tx ops) m0).transactionCache = [] ∧
    (runOp (fun _ => true) R d (TxOp.tx ops) m0).mutations = [] ∧
    (runOp (fun _ => true) R d (TxOp.tx ops) m0).transactionsInProgress = 0 := by
  rw [runOp_tx_eq]
  obtain ⟨hd2, hs2, _⟩ := runOps_inTx (fun _ => true) R d ops
    { m0 with transactionsInProgress := m0.transactionsInProgress + 1 }
    (by show 1 ≤ m0.transactionsInProgress + 1; omega)
  set m2 := runOps (fun _ => true) R d ops
    { m0 with transactionsInProgress := m0.transactionsInProgress + 1 } with hm2
  have hd2' : m2.transactionsInProgress = 1 := by
    have : m2.transactionsInProgress = m0.transactionsInProgress + 1 := hd2
    omega
  simp only []
  rw [if_pos hd2']
  by_cases hmut : m2.mutations.isEmpty
  · rw [if_pos hmut]
    rw [if_pos (show m2.transactionsInProgress - 1 = 0 by omega)]
    refine ⟨hs2, rfl, rfl, ?_⟩
    show m2.transactionsInProgress - 1 = 0
    omega
  · rw [if_neg hmut]
    rw [commitLoop_allfail R 0 d m2]
    rw [if_pos (show m2.transactionsInProgress - 1 = 0 by omega)]
    refine ⟨hs2, rfl, rfl, ?_⟩
    show m2.transactionsInProgress - 1 = 0
    omega

theorem runOp_tx_get {V : Type} (fail : Nat → Bool) (R d : Nat) (k2 : SKey)
    (M : TxM V) (h0 : M.transactionsInProgress = 0)
    (htc : M.transactionCache = []) (hmu : M.mutations = []) :
    (runOp fail R d (TxOp.tx [TxOp.get k2]) M).log
      = M.log ++ [TxEv.got k2 (kvGet M.store k2)] := by
  obtain ⟨sto, tc, mu, dep, lg⟩ := M
  simp only at h0 htc hmu
  subst h0
  subst htc
  subst hmu
  rw [runOp_tx_eq]
  simp only [runOps, runOp, tGetStep, kvGet]
  cases hs : kvGet sto k2 with
  | some v => simp [hs]
  | none => simp [hs]

/-- C1: for the key store produced by `addTransactionCapability`: a `set`
performed inside a transaction is visible to every later `get` of the same
`(type, id)` row issued inside the same (possibly nested) transaction
before commit (for any intervening operations that do not write that row);
the underlying store's `set` is never invoked while the transaction body
runs, and a persistently failing commit performs exactly `maxCommitRetries`
underlying `set` attempts with delays doubling from `delayBetweenTriesMs`;
and when every commit attempt fails the mutations are discarded in
aggregate — the store is unchanged, the caches are cleared — so a
subsequent transaction's `get` returns the pre-transaction value of each
row. -/
theorem addTransactionCapability_spec {V : Type} (fail : Nat → Bool)
    (maxCommitRetries delayBetweenTriesMs : Nat) (k : SKey) (v : V)
    (mid ops : List (TxOp V)) (m m0 : TxM V)
    (hdepth : 1 ≤ m.transactionsInProgress)
    (hwf : writeFreeOps k mid = true)
    (hm0 : m0.transactionsInProgress = 0) :
    (runOps fail maxCommitRetries delayBetweenTriesMs
        (TxOp.set [(k, some v)] :: (mid ++ [TxOp.get k])) m).log
      = (runOps fail maxCommitRetries delayBetweenTriesMs
          (TxOp.set [(k, some v)] :: mid) m).log ++ [TxEv.got k (some v)] ∧
    (runOps fail maxCommitRetries delayBetweenTriesMs ops m).store = m.store ∧
    storeSetCount (runOps fail maxCommitRetries delayBetweenTriesMs ops m).log
      = storeSetCount m.log ∧
    commitLoop (fun _ => true) 0 maxCommitRetries delayBetweenTriesMs m
      = { m with log := m.log
            ++ failScheduleEvents V delayBetweenTriesMs maxCommitRetries } ∧
    delaysOf (failScheduleEvents V delayBetweenTriesMs maxCommitRetries)
      = (List.range maxCommitRetries).map (fun i => delayBetweenTriesMs * 2 ^ i) ∧
    (runOp (fun _ => true) maxCommitRetries delayBetweenTriesMs
        (TxOp.tx ops) m0).store = m0.store ∧
    (runOp (fun _ => true) maxCommitRetries delayBetweenTriesMs
        (TxOp.tx ops) m0).transactionCache = [] ∧
    (runOp (fun _ => true) maxCommitRetries delayBetweenTriesMs
        (TxOp.tx ops) m0).mutations = [] ∧
    (runOp (fun _ => true) maxCommitRetries delayBetweenTriesMs
        (TxOp.tx ops) m0).transactionsInProgress = 0 ∧
    (∀ k2 : SKey,
      (runOp (fun _ => true) maxCommitRetries delayBetweenTriesMs
          (TxOp.tx [TxOp.get k2])
          (runOp (fun _ => true) maxCommitRetries delayBetweenTriesMs
            (TxOp.tx ops) m0)).log
        = (runOp (fun _ => true) maxCommitRetries delayBetweenTriesMs
            (TxOp.tx ops) m0).log
          ++ [TxEv.got k2 (kvGet m0.store k2)]) := by
  obtain ⟨hS, hC, hU, hD⟩ :=
    runOp_tx_allfail maxCommitRetries delayBetweenTriesMs ops m0 hm0
  refine ⟨visibility_aux fail maxCommitRetries delayBetweenTriesMs k v mid m
      hdepth hwf,
    (runOps_inTx fail maxCommitRetries delayBetweenTriesMs ops m hdepth).2.1,
    (runOps_inTx fail maxCommitRetries delayBetweenTriesMs ops m hdepth).2.2,
    commitLoop_allfail maxCommitRetries 0 delayBetweenTriesMs m,
    delaysOf_failSchedule maxCommitRetries delayBetweenTriesMs,
    hS, hC, hU, hD, ?_⟩
  intro k2
  rw [runOp_tx_get (fun _ => true) maxCommitRetries delayBetweenTriesMs k2 _
    hD hC hU]
  rw [hS]

theorem addTransactionCapability_spec_witness :
    (runOps (fun _ => true) 5 100
        (TxOp.set [((("pre-key", "7") : SKey), some (42 : Nat))]
          :: ([] ++ [TxOp.get (("pre-key", "7") : SKey)]))
        (TxM.mk [] [] [] 1 [])).log
      = (runOps (fun _ => true) 5 100
          (TxOp.set [((("pre-key", "7") : SKey), some (42 : Nat))] :: [])
          (TxM.mk [] [] [] 1 [])).log
        ++ [TxEv.got ("pre-key", "7") (some 42)] :=
  (addTransactionCapability_spec (fun _ => true) 5 100 ("pre-key", "7")
    (42 : Nat) [] [] (TxM.mk [] [] [] 1 []) (TxM.mk [] [] [] 0 [])
    (by decide) rfl rfl).1
